import Mathlib

/-!
Shallow embedding of the Python transform classes of the galileo repository
(`galileo.framework.tf.python.transforms.relation`,
`galileo.framework.tf.python.transforms.multi_hop_feature`,
`galileo.framework.tf.python.transforms.neighbor_neg`,
`galileo.framework.pytorch.python.transforms.rw_neg`).

Tensors are modelled as (nested) lists; the TensorFlow / PyTorch reshaping
primitives used by the code are modelled by explicit index arithmetic.  The
opaque sampling API (`sample_pairs_by_random_walk`, `sample_neighbors`,
`sample_vertices`, `get_pod_feature`) is passed in as function arguments.
-/

namespace Galileo

/-- Model of `tf.reshape(x, [-1, d])` followed by `tf.transpose` on the flat
element list `xs`: the result has `d` rows, and row `r` holds the elements of
`xs` at flat positions `c * d + r` for `c < xs.length / d`. -/
def reshapeTranspose {α : Type} [Inhabited α] (d : Nat) (xs : List α) : List (List α) :=
  (List.range d).map fun r =>
    (List.range (xs.length / d)).map fun c => xs.getD (c * d + r) default

/-- Splits a list into the elements at even positions and at odd positions.
This models `tf.concat(tf.split(g, P), axis=1)` applied to a `[2 * P, N]`
tensor `g`: row 0 of the result concatenates rows 0, 2, 4, … of `g` and
row 1 concatenates rows 1, 3, 5, …. -/
def deinterleave {α : Type} : List α → List α × List α
  | [] => ([], [])
  | x :: xs => ((deinterleave xs).2.cons x, (deinterleave xs).1)

/-- Model of `tf.argsort(key)`: a permutation of `List.range key.length`
arranged so that the key values are in non-decreasing order. -/
def tfArgsort (key : List Int) : List Nat :=
  List.insertionSort (fun i j => key.getD i 0 ≤ key.getD j 0) (List.range key.length)

/-- Modelled from the spec: `get_fanouts_list` is imported from
`galileo.framework.python.utils.utils`, which is not part of this snapshot.
Per the spec, the multi-hop neighbor table produced for fanouts
`[f1, f2, …]` has per-vertex layers of sizes `1, f1, f1*f2, …`
("multi-hop neighbor expansion", one layer per hop). -/
def get_fanouts_list (fanouts : List Nat) : List Nat :=
  List.scanl (· * ·) 1 fanouts

/-- Width of the per-vertex multi-hop table: `1 + f1 + f1*f2 + …`. -/
def fanouts_dim (fanouts : List Nat) : Nat :=
  (get_fanouts_list fanouts).sum

/-- Helper for `get_fanouts_indices`: emits the interleaved (parent, child)
row-index pairs for each hop, starting at row `offset` with `layerSize`
vertices in the current layer. -/
def fanoutsIndicesFrom (offset layerSize : Nat) : List Nat → List Nat
  | [] => []
  | f :: rest =>
    ((List.range layerSize).flatMap fun j =>
      (List.range f).flatMap fun k => [offset + j, offset + layerSize + j * f + k]) ++
    fanoutsIndicesFrom (offset + layerSize) (layerSize * f) rest

/-- Modelled from the spec: `get_fanouts_indices` is imported from
`galileo.framework.python.utils.utils`, which is not part of this snapshot.
Per the spec, the relation graph holds "edge index pairs … derived from the
neighbor table by flattening/gathering operations", one edge per non-root
table column: each vertex of layer `h` is joined to its `f_{h+1}` sampled
neighbors in layer `h+1`.  The list interleaves (parent row, child row)
indices, so consecutive pairs describe one edge. -/
def get_fanouts_indices (fanouts : List Nat) : List Nat :=
  fanoutsIndicesFrom 0 1 fanouts

/-- Input accepted by `RelationTransform.transform`: a list/tuple, a dict
(where the `edge_weight` entry may be absent, modelled as `none`), or a bare
tensor. -/
inductive RTInput (β : Type) where
  | pair (indices : List Int) (edge_weight : Option (List (List β)))
  | dict (indices : List Int) (edge_weight : Option (List (List β)))
  | tensor (indices : List Int)

/-- The `indices` tensor extracted from the input (first branch of the
`isinstance` dispatch in `RelationTransform.transform`). -/
def RTInput.indices {β : Type} : RTInput β → List Int
  | .pair i _ => i
  | .dict i _ => i
  | .tensor i => i

/-- The `edge_weight` tensor extracted from the input; `none` for a bare
tensor, for a dict without the entry, and for a list whose second element is
`None`. -/
def RTInput.edge_weight {β : Type} : RTInput β → Option (List (List β))
  | .pair _ w => w
  | .dict _ w => w
  | .tensor _ => none

/-- The relation graph returned by `RelationTransform.transform`:
`relation_indices` is a `[2, E]` tensor, `relation_weight` a `[E, 1]` tensor
(or `None`), `target_indices` the indices of the target vertices. -/
structure RelationGraph (β : Type) where
  relation_indices : List (List Int)
  relation_weight : Option (List (List β))
  target_indices : List Int
deriving Repr, DecidableEq

/-- Embedding of `RelationTransform.transform` (relation.py, lines 79-128)
for inputs of rank at most 2: the indices are reshaped to
`[-1, fanouts_dim]` and transposed, row 0 gives `target_indices`, the rows
listed by `get_fanouts_indices` are gathered and re-glued into a `[2, E]`
tensor, optionally sorted by the first row, and the edge weights lose their
first column and are flattened to `[E, 1]`. -/
def RelationTransform.transform {β : Type} (fanouts : List Nat)
    (sort_indices : Bool) (inputs : RTInput β) : RelationGraph β :=
  let indices := inputs.indices
  let edge_weight := inputs.edge_weight
  let indices_t := reshapeTranspose (fanouts_dim fanouts) indices
  let target_indices := indices_t.headD []
  let gathered := (get_fanouts_indices fanouts).map fun i => indices_t.getD i []
  let relation_indices := [(deinterleave gathered).1.flatten, (deinterleave gathered).2.flatten]
  let relation_indices :=
    if sort_indices then
      let idx := tfArgsort (relation_indices.getD 0 [])
      relation_indices.map fun row => idx.map fun i => row.getD i 0
    else relation_indices
  let relation_weight := edge_weight.map fun ew => (ew.map (List.drop 1)).flatten.map fun v => [v]
  { relation_indices := relation_indices
    relation_weight := relation_weight
    target_indices := target_indices }

/-- The target-index mapping as the spec words it: reshape the neighbor table
to `[N, fanouts_dim]` and take column 0, i.e. the elements at flat positions
`0, fanouts_dim, 2 * fanouts_dim, …, (N-1) * fanouts_dim`. -/
def specTargetIndices (fanouts : List Nat) (indices : List Int) (N : Nat) : List Int :=
  (List.range N).map fun c => indices.getD (c * fanouts_dim fanouts) 0

/-- The columns of a `[R, E]` tensor held as a list of `E` column vectors,
where `E` is the length of the first row. -/
def matColumns (m : List (List Int)) : List (List Int) :=
  (List.range (m.headD []).length).map fun c => m.map fun row => row.getD c 0

/-- Column `j` of a `[P, k]` tensor, kept as a `[P, 1]` tensor. -/
def tensorColumn (j : Nat) (m : List (List Int)) : List (List Int) :=
  m.map fun r => [r.getD j 0]

/-- Model of reshaping a flat vector to a `[rows, cols]` tensor
(`tensor.view(rows, cols)` in PyTorch, `tf.reshape(t, [rows, cols])` in
TensorFlow); faithful when the vector has exactly `rows * cols` elements,
which is the only case the frameworks accept. -/
def reshapeRows {α : Type} [Inhabited α] (rows cols : Nat) (flat : List α) : List (List α) :=
  (List.range rows).map fun i => (List.range cols).map fun j => flat.getD (i * cols + j) default

/-- Position of the first occurrence of `x` in `u`, the lookup `tf.unique`
performs when deciding whether a value was already seen. -/
def indexOfFirst (u : List Int) (x : Int) : Option Nat :=
  match u with
  | [] => none
  | y :: ys => if y = x then some 0 else (indexOfFirst ys x).map (· + 1)

/-- One step of `tf.unique` on the running (unique values, inverse indices)
accumulator: a value already seen contributes its first position, a new value
is appended and contributes the fresh position. -/
def tfUniqueStep (acc : List Int × List Nat) (x : Int) : List Int × List Nat :=
  match indexOfFirst acc.1 x with
  | some i => (acc.1, acc.2 ++ [i])
  | none => (acc.1 ++ [x], acc.2 ++ [acc.1.length])

/-- Model of `tf.unique`: returns the distinct values in order of first
occurrence together with, for each input position, the index of its value in
the unique list. -/
def tfUnique (xs : List Int) : List Int × List Nat :=
  xs.foldl tfUniqueStep ([], [])

/-- Python `int` / `list[int]` argument as passed for the `*_feature_dims`
parameters of `MultiHopFeatureTransform.__init__`. -/
inductive PyDims where
  | int (n : Int)
  | list (l : List Int)
deriving Repr, DecidableEq

/-- Python truthiness of a dims argument: `0` and `[]` are falsy. -/
def PyDims.truthy : PyDims → Bool
  | .int n => n != 0
  | .list l => !l.isEmpty

/-- The `isinstance(dims, int)` expansion of `MultiHopFeatureTransform.__init__`:
a single int is repeated once per feature name, a list is kept as is. -/
def expandFeatureDims (names : List String) : PyDims → List Int
  | .int n => List.replicate names.length n
  | .list l => l

/-- Configuration stored by `MultiHopFeatureTransform.__init__`.  Modelled
from the spec for the storage itself: the base classes `BaseTransform` and
`MultiHopNeighborTransform` are not under `src/`; per the spec the adapters
simply keep their constructor arguments as configuration. -/
structure MHFConfig where
  metapath : List (List Int)
  fanouts : List Nat
  edge_weight : Bool
  dense_feature_names : Option (List String)
  dense_feature_dims : Option PyDims
  sparse_feature_names : Option (List String)
  sparse_feature_dims : Option PyDims
deriving Repr, DecidableEq

/-- The dense-dims block of `MultiHopFeatureTransform.__init__`
(multi_hop_feature.py, lines 64-70): when dense names are given, the dims
must be truthy (`assert dense_feature_dims`), an int is expanded, and the
lengths must agree.  Returns the (possibly expanded) dims to store. -/
def checkDenseDims (dense_feature_names : Option (List String))
    (dense_feature_dims : Option PyDims) : Except String (Option PyDims) :=
  match dense_feature_names with
  | none => .ok dense_feature_dims
  | some dn =>
    match dense_feature_dims with
    | none => .error "AssertionError: must set dense_feature_dims(int or list[int])"
    | some d =>
      if d.truthy = false then
        .error "AssertionError: must set dense_feature_dims(int or list[int])"
      else
        let dl := expandFeatureDims dn d
        if dl.length = dn.length then .ok (some (.list dl))
        else .error "AssertionError: len(dense_feature_names) == len(dense_feature_dims)"

/-- The sparse-dims block of `MultiHopFeatureTransform.__init__`
(multi_hop_feature.py, lines 71-80): when sparse names are given, absent
dims default to `1`, an int is expanded, any entry different from `1` raises
`ValueError`, and the lengths must agree. -/
def checkSparseDims (sparse_feature_names : Option (List String))
    (sparse_feature_dims : Option PyDims) : Except String (Option PyDims) :=
  match sparse_feature_names with
  | none => .ok sparse_feature_dims
  | some sn =>
    let sl := expandFeatureDims sn (sparse_feature_dims.getD (.int 1))
    if sl.any (· ≠ 1) then .error "ValueError: Only support one dim sparse feature"
    else if sl.length = sn.length then .ok (some (.list sl))
    else .error "AssertionError: len(sparse_feature_names) == len(sparse_feature_dims)"

/-- Embedding of `MultiHopFeatureTransform.__init__` (multi_hop_feature.py,
lines 41-88).  `Except.error` models the `ValueError` / `AssertionError`
raised by the Python code, in source order: missing names first, then the
dense dims checks, then the sparse dims checks. -/
def MultiHopFeatureTransform.init (metapath : List (List Int)) (fanouts : List Nat)
    (edge_weight : Bool)
    (dense_feature_names : Option (List String)) (dense_feature_dims : Option PyDims)
    (sparse_feature_names : Option (List String)) (sparse_feature_dims : Option PyDims) :
    Except String MHFConfig :=
  if dense_feature_names = none ∧ sparse_feature_names = none then
    .error "ValueError: one of dense or sparse feature names must be specified"
  else
    match checkDenseDims dense_feature_names dense_feature_dims with
    | .error e => .error e
    | .ok dd =>
      match checkSparseDims sparse_feature_names sparse_feature_dims with
      | .error e => .error e
      | .ok sd =>
        .ok { metapath := metapath, fanouts := fanouts, edge_weight := edge_weight
              dense_feature_names := dense_feature_names, dense_feature_dims := dd
              sparse_feature_names := sparse_feature_names, sparse_feature_dims := sd }

/-- Output dict of `MultiHopFeatureTransform.transform`; `none` models an
absent key. -/
structure MHFOutput where
  ids : List (List Int)
  dense : Option (List (List (List Int)))
  sparse : Option (List (List (List Int)))
  edge_weight : Option (List (List Int))
deriving Repr, DecidableEq

/-- Embedding of `MultiHopFeatureTransform.get_feature` (multi_hop_feature.py,
lines 130-150) as called from `transform` (indices and origin shape supplied).
`rawFeat names vertices` models
`tf.concat(ops.get_pod_feature([vertices], names, dims, types), axis=-1)`,
the opaque per-vertex feature fetch already concatenated along the feature
axis; the dims and dtypes arguments only parameterize that opaque call.  The
final `tf.reshape(features, origin_shape ++ [sum(dims)])` regroups the
gathered `[flat, D]` rows by the original `[B, W]` table shape, which is what
`reshapeRows` does on the row representation. -/
def MultiHopFeatureTransform.get_feature
    (rawFeat : List String → List Int → List (List Int))
    (vertices : List Int) (feature_names : Option (List String))
    (indices : List Nat) (origin_shape : Nat × Nat) :
    Option (List (List (List Int))) :=
  match feature_names with
  | none => none
  | some names =>
    let features := rawFeat names vertices
    let features := indices.map fun i => features.getD i []
    some (reshapeRows origin_shape.1 origin_shape.2 features)

/-- Embedding of `MultiHopFeatureTransform.transform` (multi_hop_feature.py,
lines 90-128).  `sampleMultiHop` models the opaque
`self.sample_multi_hop(inputs)` (its class lives outside `src/`), returning
the id table and, when configured, the edge-weight table;
`tf.shape(multi_hops[0])` is the rectangular `[B, W]` shape of the table. -/
def MultiHopFeatureTransform.transform (cfg : MHFConfig)
    (sampleMultiHop : List Int → List (List Int) × List (List Int))
    (rawFeat : List String → List Int → List (List Int))
    (inputs : List Int) : MHFOutput :=
  let multi_hops := sampleMultiHop inputs
  let ids := multi_hops.1
  let vertices_flat := ids.flatten
  let vi := tfUnique vertices_flat
  let origin_shape := (ids.length, (ids.headD []).length)
  let dense := MultiHopFeatureTransform.get_feature rawFeat vi.1
    cfg.dense_feature_names vi.2 origin_shape
  let sparse := MultiHopFeatureTransform.get_feature rawFeat vi.1
    cfg.sparse_feature_names vi.2 origin_shape
  { ids := ids, dense := dense, sparse := sparse
    edge_weight := if cfg.edge_weight then some multi_hops.2 else none }

/-- Configuration stored by `RandomWalkNegTransform.__init__`
(rw_neg.py, lines 43-83); the walk parameters `walk_p` / `walk_q` are merely
carried, never computed with. -/
structure RWNConfig where
  vertex_type : List Int
  edge_types : List Int
  negative_num : Nat
  context_size : Nat
  repetition : Nat
  walk_p : ℚ
  walk_q : ℚ
  walk_length : Option Nat
  metapath : List (List Int)
deriving Repr, DecidableEq

/-- Embedding of `RandomWalkNegTransform.__init__` (rw_neg.py, lines 43-83):
raises `ValueError` when both `walk_length` and `metapath` are `None`, and
defaults the metapath to `[edge_types] * walk_length`. -/
def RandomWalkNegTransform.init (vertex_type edge_types : List Int)
    (negative_num context_size : Nat) (repetition : Nat) (walk_p walk_q : ℚ)
    (walk_length : Option Nat) (metapath : Option (List (List Int))) :
    Except String RWNConfig :=
  match walk_length, metapath with
  | none, none =>
    .error "ValueError: one of walk_length and metapath must be specified"
  | some L, none =>
    .ok { vertex_type := vertex_type, edge_types := edge_types
          negative_num := negative_num, context_size := context_size
          repetition := repetition, walk_p := walk_p, walk_q := walk_q
          walk_length := some L, metapath := List.replicate L edge_types }
  | wl, some mp =>
    .ok { vertex_type := vertex_type, edge_types := edge_types
          negative_num := negative_num, context_size := context_size
          repetition := repetition, walk_p := walk_p, walk_q := walk_q
          walk_length := wl, metapath := mp }

/-- Output dict of the two negative-sampling transforms: exactly the keys
`target`, `context` and `negative`. -/
structure NegOutput where
  target : List (List Int)
  context : List (List Int)
  negative : List (List Int)
deriving Repr, DecidableEq

/-- Embedding of `RandomWalkNegTransform.transform` (rw_neg.py, lines
85-118).  The opaque ops are passed in: `sample_pairs_by_random_walk`
(arguments: vertices, metapath, repetition, context_size, p, q; `none` models
the `None` failure return) and `sample_vertices` (arguments: types, count;
returns a list of tensors, indexed `[0]` by the code — an empty list would
raise `IndexError`).  `torch.split(pair, [1, 1], dim=-1)` keeps column 0 as
`target` and column 1 as `context`; `view(P, negative_num)` is `reshapeRows`. -/
def RandomWalkNegTransform.transform (cfg : RWNConfig)
    (sample_pairs_by_random_walk :
      List Int → List (List Int) → Nat → Nat → ℚ → ℚ → Option (List (List Int)))
    (sample_vertices : List Int → Nat → List (List Int))
    (inputs : List Int) : Except String NegOutput :=
  let vertices := inputs
  match sample_pairs_by_random_walk vertices cfg.metapath cfg.repetition
      cfg.context_size cfg.walk_p cfg.walk_q with
  | none => .error "ValueError: Error sample pair random walk, see logs for details"
  | some pair =>
    let target := pair.map (List.take 1)
    let context := pair.map fun r => (r.drop 1).take 1
    match sample_vertices cfg.vertex_type (cfg.negative_num * pair.length) with
    | [] => .error "IndexError: list index out of range"
    | negFlat :: _ =>
      .ok { target := target, context := context
            negative := reshapeRows pair.length cfg.negative_num negFlat }

/-- Configuration stored by `NeighborNegTransform.__init__`
(neighbor_neg.py, lines 27-37). -/
structure NNConfig where
  vertex_type : List Int
  edge_types : List Int
  negative_num : Nat
deriving Repr, DecidableEq

/-- Embedding of `NeighborNegTransform.transform` (neighbor_neg.py, lines
39-62).  `sample_neighbors` (arguments: flattened vertices, edge types,
count, has_weight) returns a list of tensors; an empty list raises
`ValueError`.  `sample_vertices` is as in `RandomWalkNegTransform`. -/
def NeighborNegTransform.transform (cfg : NNConfig)
    (sample_neighbors : List Int → List Int → Nat → Bool → List (List Int))
    (sample_vertices : List Int → Nat → List (List Int))
    (inputs : List Int) : Except String NegOutput :=
  let context := sample_neighbors inputs cfg.edge_types 1 false
  if context.length = 0 then
    .error "ValueError: Error sample neighbors, see logs for details"
  else
    let target := inputs.map fun x => [x]
    let context2 := (context.headD []).map fun x => [x]
    let size := inputs.length
    match sample_vertices cfg.vertex_type (size * cfg.negative_num) with
    | [] => .error "IndexError: list index out of range"
    | negFlat :: _ =>
      .ok { target := target, context := context2
            negative := reshapeRows size cfg.negative_num negFlat }

/-! ### General list lemmas -/

theorem getD_map_of_lt {α β : Type} (f : α → β) (l : List α) {c : Nat}
    (h : c < l.length) (dα : α) (dβ : β) :
    (l.map f).getD c dβ = f (l.getD c dα) := by
  rw [List.getD_eq_getElem _ _ (by simpa using h), List.getElem_map,
    List.getD_eq_getElem _ _ h]

theorem range_map_getD {α β : Type} (l : List α) (g : α → β) (d : α) :
    (List.range l.length).map (fun c => g (l.getD c d)) = l.map g := by
  induction l with
  | nil => simp
  | cons x xs ih =>
    rw [List.length_cons, List.range_succ_eq_map, List.map_cons, List.map_map]
    refine congrArg₂ _ (by simp) ?_
    simpa [Function.comp_def] using ih

theorem flatten_length_const {α : Type} {L : List (List α)} {N : Nat}
    (h : ∀ x ∈ L, x.length = N) : L.flatten.length = L.length * N := by
  induction L with
  | nil => simp
  | cons x xs ih =>
    have hx := h x (by simp)
    have hxs := ih fun y hy => h y (by simp [hy])
    simp only [List.flatten_cons, List.length_append, hx, hxs, List.length_cons]
    ring

theorem deinterleave_length {α : Type} (l : List α) :
    (deinterleave l).1.length = (l.length + 1) / 2 ∧
    (deinterleave l).2.length = l.length / 2 := by
  induction l with
  | nil => simp [deinterleave]
  | cons x xs ih =>
    obtain ⟨h1, h2⟩ := ih
    simp [deinterleave, h1, h2]
    omega

theorem deinterleave_mem {α : Type} (l : List α) :
    (∀ y ∈ (deinterleave l).1, y ∈ l) ∧ (∀ y ∈ (deinterleave l).2, y ∈ l) := by
  induction l with
  | nil => simp [deinterleave]
  | cons x xs ih =>
    constructor
    · intro y hy
      simp only [deinterleave, List.cons, List.mem_cons] at hy
      rcases hy with h | h
      · simp [h]
      · exact List.mem_cons_of_mem _ (ih.2 y h)
    · intro y hy
      simp only [deinterleave] at hy
      exact List.mem_cons_of_mem _ (ih.1 y hy)

theorem sum_map_const_nat {α : Type} (l : List α) (b : Nat) :
    (l.map fun _ => b).sum = l.length * b := by
  induction l with
  | nil => simp
  | cons x xs ih => simp [ih, Nat.succ_mul, Nat.add_comm]

theorem headD_eq_getD {α : Type} (l : List α) (d : α) : l.headD d = l.getD 0 d := by
  cases l <;> rfl

/-! ### Fanouts helper lemmas -/

theorem scanl_mul_sum_cons (s f : Nat) (rest : List Nat) :
    (List.scanl (· * ·) s (f :: rest)).sum =
      s + (List.scanl (· * ·) (s * f) rest).sum := by
  simp [List.scanl]

theorem scanl_mul_le_sum (s : Nat) (l : List Nat) :
    s ≤ (List.scanl (· * ·) s l).sum := by
  cases l <;> simp [List.scanl]

theorem fanoutsIndicesFrom_length (fs : List Nat) : ∀ o s : Nat,
    (fanoutsIndicesFrom o s fs).length =
      2 * ((List.scanl (· * ·) s fs).sum - s) := by
  induction fs with
  | nil => intro o s; simp [fanoutsIndicesFrom, List.scanl]
  | cons f rest ih =>
    intro o s
    have hle := scanl_mul_le_sum (s * f) rest
    simp only [fanoutsIndicesFrom, List.length_append, List.length_flatMap, ih,
      scanl_mul_sum_cons]
    have h2 : (List.map (List.length ∘ fun j => (List.range f).flatMap fun k =>
        [o + j, o + s + j * f + k]) (List.range s)).sum = s * (f * 2) := by
      have hc : ∀ j ∈ List.range s, (List.length ∘ fun j =>
          (List.range f).flatMap fun k => [o + j, o + s + j * f + k]) j = f * 2 := by
        intro j _
        simp only [Function.comp_apply, List.length_flatMap]
        have hk : ∀ k ∈ List.range f, (List.length ∘ fun k =>
            [o + j, o + s + j * f + k]) k = 2 := by intro k _; simp
        rw [List.map_congr_left hk, sum_map_const_nat, List.length_range]
      rw [List.map_congr_left hc, sum_map_const_nat, List.length_range]
    rw [h2]
    have h3 : s * (f * 2) = 2 * (s * f) := by ring
    omega

theorem fanoutsIndicesFrom_lt (fs : List Nat) : ∀ o s : Nat,
    ∀ x ∈ fanoutsIndicesFrom o s fs, x < o + (List.scanl (· * ·) s fs).sum := by
  induction fs with
  | nil => intro o s x hx; simp [fanoutsIndicesFrom] at hx
  | cons f rest ih =>
    intro o s x hx
    have hle := scanl_mul_le_sum (s * f) rest
    rw [scanl_mul_sum_cons]
    simp only [fanoutsIndicesFrom, List.mem_append, List.mem_flatMap,
      List.mem_range, List.mem_cons, List.not_mem_nil, or_false] at hx
    rcases hx with ⟨j, hj, k, hk, hx⟩ | hx
    · have hjf : j * f + k < s * f := by
        calc j * f + k < j * f + f := by omega
        _ = (j + 1) * f := by ring
        _ ≤ s * f := Nat.mul_le_mul_right f (by omega)
      rcases hx with hx | hx <;> omega
    · have := ih (o + s) (s * f) x hx
      omega

theorem fanouts_dim_pos (fanouts : List Nat) : 1 ≤ fanouts_dim fanouts := by
  cases fanouts <;> simp [fanouts_dim, get_fanouts_list, List.scanl]

theorem get_fanouts_indices_length (fanouts : List Nat) :
    (get_fanouts_indices fanouts).length = 2 * (fanouts_dim fanouts - 1) := by
  simpa [get_fanouts_indices, fanouts_dim, get_fanouts_list] using
    fanoutsIndicesFrom_length fanouts 0 1

theorem get_fanouts_indices_lt (fanouts : List Nat) :
    ∀ x ∈ get_fanouts_indices fanouts, x < fanouts_dim fanouts := by
  intro x hx
  simpa [fanouts_dim, get_fanouts_list] using fanoutsIndicesFrom_lt fanouts 0 1 x hx

/-! ### reshapeTranspose lemmas -/

theorem reshapeTranspose_length {α : Type} [Inhabited α] (d : Nat) (xs : List α) :
    (reshapeTranspose d xs).length = d := by
  simp [reshapeTranspose]

theorem reshapeTranspose_getD {α : Type} [Inhabited α] (d : Nat) (xs : List α)
    {i : Nat} (h : i < d) :
    (reshapeTranspose d xs).getD i [] =
      (List.range (xs.length / d)).map fun c => xs.getD (c * d + i) default := by
  rw [List.getD_eq_getElem _ _ (by simpa [reshapeTranspose] using h)]
  simp [reshapeTranspose]

theorem reshapeTranspose_headD {α : Type} [Inhabited α] (d : Nat) (xs : List α)
    (h : 0 < d) :
    (reshapeTranspose d xs).headD [] =
      (List.range (xs.length / d)).map fun c => xs.getD (c * d) default := by
  rw [headD_eq_getD, reshapeTranspose_getD d xs h]
  simp

/-! ### Claim theorems for `RelationTransform` -/

/-- Claim C2: for an input whose indices have size `N * fanouts_dim`,
`RelationTransform.transform` returns as `target_indices` exactly the
elements of the flattened indices at positions
`0, fanouts_dim, 2 * fanouts_dim, …, (N-1) * fanouts_dim`, i.e. column 0 of
the `[N, fanouts_dim]` reshape of the neighbor table. -/
theorem relationTransform_target_indices {β : Type} (fanouts : List Nat) (sb : Bool)
    (inp : RTInput β) (N : Nat)
    (hlen : inp.indices.length = N * fanouts_dim fanouts) :
    (RelationTransform.transform fanouts sb inp).target_indices =
      specTargetIndices fanouts inp.indices N := by
  have hdpos := fanouts_dim_pos fanouts
  have hNdiv : inp.indices.length / fanouts_dim fanouts = N := by
    rw [hlen]
    exact Nat.mul_div_cancel N hdpos
  simp only [RelationTransform.transform, specTargetIndices]
  rw [reshapeTranspose_headD _ _ hdpos, hNdiv]
  rfl

/-- Witness for C2 at fanouts `[2]`, `N = 2`. -/
theorem relationTransform_target_indices_witness :
    (RelationTransform.transform (β := Int) [2] false
        (RTInput.tensor [10, 11, 12, 20, 21, 22])).target_indices =
      specTargetIndices [2] [10, 11, 12, 20, 21, 22] 2 :=
  relationTransform_target_indices [2] false
    (RTInput.tensor [10, 11, 12, 20, 21, 22]) 2 (by decide)

/-- Claim C5: `RelationTransform.transform` is deterministic — on equal
inputs it returns equal `relation_indices`, `relation_weight` and
`target_indices`; it is a pure function of its input with no sampling call
and no hidden state. -/
theorem relationTransform_deterministic {β : Type} (fanouts : List Nat) (sb : Bool)
    (i1 i2 : RTInput β) (h : i1 = i2) :
    (RelationTransform.transform fanouts sb i1).relation_indices =
      (RelationTransform.transform fanouts sb i2).relation_indices ∧
    (RelationTransform.transform fanouts sb i1).relation_weight =
      (RelationTransform.transform fanouts sb i2).relation_weight ∧
    (RelationTransform.transform fanouts sb i1).target_indices =
      (RelationTransform.transform fanouts sb i2).target_indices := by
  subst h
  exact ⟨rfl, rfl, rfl⟩

/-- Witness for C5 at a concrete input. -/
theorem relationTransform_deterministic_witness :
    (RelationTransform.transform (β := Int) [2] true
        (RTInput.dict [0, 1, 2, 3, 4, 5] (some [[1, 2, 3], [4, 5, 6]]))).relation_indices =
      (RelationTransform.transform [2] true
        (RTInput.dict [0, 1, 2, 3, 4, 5] (some [[1, 2, 3], [4, 5, 6]]))).relation_indices ∧
    (RelationTransform.transform (β := Int) [2] true
        (RTInput.dict [0, 1, 2, 3, 4, 5] (some [[1, 2, 3], [4, 5, 6]]))).relation_weight =
      (RelationTransform.transform [2] true
        (RTInput.dict [0, 1, 2, 3, 4, 5] (some [[1, 2, 3], [4, 5, 6]]))).relation_weight ∧
    (RelationTransform.transform (β := Int) [2] true
        (RTInput.dict [0, 1, 2, 3, 4, 5] (some [[1, 2, 3], [4, 5, 6]]))).target_indices =
      (RelationTransform.transform [2] true
        (RTInput.dict [0, 1, 2, 3, 4, 5] (some [[1, 2, 3], [4, 5, 6]]))).target_indices :=
  relationTransform_deterministic [2] true
    (RTInput.dict [0, 1, 2, 3, 4, 5] (some [[1, 2, 3], [4, 5, 6]]))
    (RTInput.dict [0, 1, 2, 3, 4, 5] (some [[1, 2, 3], [4, 5, 6]])) rfl

/-- Claim C9: the returned dict always has the `relation_weight` key; its
value is `None` for a bare tensor input, for a dict without an `edge_weight`
entry, and for a list/tuple whose second element is `None`, and it is a
tensor exactly when an `edge_weight` tensor is supplied. -/
theorem relationTransform_weight_presence {β : Type} (fanouts : List Nat) (sb : Bool) :
    (∀ ind : List Int,
      (RelationTransform.transform (β := β) fanouts sb (RTInput.tensor ind)).relation_weight
        = none) ∧
    (∀ ind : List Int,
      (RelationTransform.transform (β := β) fanouts sb (RTInput.dict ind none)).relation_weight
        = none) ∧
    (∀ ind : List Int,
      (RelationTransform.transform (β := β) fanouts sb (RTInput.pair ind none)).relation_weight
        = none) ∧
    (∀ inp : RTInput β,
      (RelationTransform.transform fanouts sb inp).relation_weight.isSome
        = inp.edge_weight.isSome) := by
  refine ⟨fun ind => rfl, fun ind => rfl, fun ind => rfl, fun inp => ?_⟩
  simp [RelationTransform.transform]

theorem tfArgsort_length (key : List Int) : (tfArgsort key).length = key.length := by
  rw [tfArgsort, List.length_insertionSort, List.length_range]

theorem gathered_row_length (fanouts : List Nat) (indices : List Int) (N : Nat)
    (hlen : indices.length = N * fanouts_dim fanouts) :
    ∀ row ∈ (get_fanouts_indices fanouts).map
      (fun i => (reshapeTranspose (fanouts_dim fanouts) indices).getD i []),
      row.length = N := by
  intro row hrow
  obtain ⟨i, hi, rfl⟩ := List.mem_map.mp hrow
  rw [reshapeTranspose_getD _ _ (get_fanouts_indices_lt fanouts i hi)]
  rw [List.length_map, List.length_range, hlen,
    Nat.mul_div_cancel N (fanouts_dim_pos fanouts)]

/-- Claim C1: for an input whose indices have size `N * fanouts_dim` and
whose edge weights, when supplied, form an `[N, fanouts_dim]` tensor, the
transform returns `relation_indices` of shape `[2, N * (fanouts_dim - 1)]`,
`relation_weight` (when a weight was supplied) of shape
`[N * (fanouts_dim - 1), 1]`, and `target_indices` with exactly `N`
elements. -/
theorem relationTransform_shapes {β : Type} (fanouts : List Nat) (sb : Bool)
    (inp : RTInput β) (N : Nat)
    (hlen : inp.indices.length = N * fanouts_dim fanouts)
    (hw : ∀ ew, inp.edge_weight = some ew →
      ew.length = N ∧ ∀ r ∈ ew, r.length = fanouts_dim fanouts) :
    (RelationTransform.transform fanouts sb inp).relation_indices.length = 2 ∧
    (∀ row ∈ (RelationTransform.transform fanouts sb inp).relation_indices,
      row.length = N * (fanouts_dim fanouts - 1)) ∧
    (∀ w, (RelationTransform.transform fanouts sb inp).relation_weight = some w →
      w.length = N * (fanouts_dim fanouts - 1) ∧ ∀ r ∈ w, r.length = 1) ∧
    (RelationTransform.transform fanouts sb inp).target_indices.length = N := by
  have hdpos := fanouts_dim_pos fanouts
  have hNdiv : inp.indices.length / fanouts_dim fanouts = N := by
    rw [hlen]
    exact Nat.mul_div_cancel N hdpos
  set d := fanouts_dim fanouts with hd
  set gathered := (get_fanouts_indices fanouts).map
    (fun i => (reshapeTranspose d inp.indices).getD i []) with hg
  have hrowsN : ∀ row ∈ gathered, row.length = N := gathered_row_length fanouts inp.indices N hlen
  have hglen : gathered.length = 2 * (d - 1) := by
    rw [hg, List.length_map, get_fanouts_indices_length]
  have h1len : (deinterleave gathered).1.length = d - 1 := by
    rw [(deinterleave_length gathered).1, hglen]; omega
  have h2len : (deinterleave gathered).2.length = d - 1 := by
    rw [(deinterleave_length gathered).2, hglen]; omega
  have hf1 : (deinterleave gathered).1.flatten.length = N * (d - 1) := by
    rw [flatten_length_const fun x hx => hrowsN x ((deinterleave_mem gathered).1 x hx),
      h1len, Nat.mul_comm]
  have hf2 : (deinterleave gathered).2.flatten.length = N * (d - 1) := by
    rw [flatten_length_const fun x hx => hrowsN x ((deinterleave_mem gathered).2 x hx),
      h2len, Nat.mul_comm]
  have htrans : RelationTransform.transform fanouts sb inp =
      { relation_indices :=
          if sb then
            (let idx := tfArgsort ((deinterleave gathered).1.flatten);
              [idx.map fun i => (deinterleave gathered).1.flatten.getD i 0,
               idx.map fun i => (deinterleave gathered).2.flatten.getD i 0])
          else [(deinterleave gathered).1.flatten, (deinterleave gathered).2.flatten]
        relation_weight :=
          inp.edge_weight.map fun ew => (ew.map (List.drop 1)).flatten.map fun v => [v]
        target_indices := (reshapeTranspose d inp.indices).headD [] } := by
    rw [RelationTransform.transform]
    cases sb <;> rfl
  rw [htrans]
  refine ⟨?_, ?_, ?_, ?_⟩
  · cases sb <;> simp
  · intro row hrow
    cases sb with
    | false =>
      simp only [Bool.false_eq_true, if_false, List.mem_cons, List.not_mem_nil,
        or_false] at hrow
      rcases hrow with rfl | rfl
      · exact hf1
      · exact hf2
    | true =>
      simp only [if_true, List.mem_cons, List.not_mem_nil, or_false] at hrow
      have hidx : (tfArgsort ((deinterleave gathered).1.flatten)).length = N * (d - 1) := by
        rw [tfArgsort_length, hf1]
      rcases hrow with rfl | rfl <;> rw [List.length_map, hidx]
  · intro w hwmem
    rw [Option.map_eq_some'] at hwmem
    obtain ⟨ew, hew, hw2⟩ := hwmem
    subst hw2
    obtain ⟨hewN, hewrows⟩ := hw ew hew
    have hdrop : ∀ r ∈ ew.map (List.drop 1), r.length = d - 1 := by
      intro r hr
      obtain ⟨r0, hr0, rfl⟩ := List.mem_map.mp hr
      rw [List.length_drop, hewrows r0 hr0]
    constructor
    · rw [List.length_map, flatten_length_const hdrop, List.length_map, hewN, Nat.mul_comm]
    · intro r hr
      obtain ⟨v, _, rfl⟩ := List.mem_map.mp hr
      rfl
  · rw [reshapeTranspose_headD _ _ hdpos, List.length_map, List.length_range, hNdiv]

/-- Witness for C1 at fanouts `[2]`, `N = 2`: closed consequences of the
shape theorem at a concrete input. -/
theorem relationTransform_shapes_witness :
    (RelationTransform.transform [2] false
        (RTInput.dict [0, 1, 2, 3, 4, 5]
          (some [[1, 2, 3], [4, 5, 6]]))).relation_indices.length = 2 ∧
    (RelationTransform.transform [2] false
        (RTInput.dict [0, 1, 2, 3, 4, 5]
          (some [[1, 2, 3], [4, 5, 6]]))).target_indices.length = 2 :=
  ⟨(relationTransform_shapes [2] false
      (RTInput.dict [0, 1, 2, 3, 4, 5] (some [[1, 2, 3], [4, 5, 6]])) 2
      (by decide)
      (by intro ew hew
          simp only [RTInput.edge_weight, Option.some.injEq] at hew
          subst hew
          decide)).1,
   (relationTransform_shapes [2] false
      (RTInput.dict [0, 1, 2, 3, 4, 5] (some [[1, 2, 3], [4, 5, 6]])) 2
      (by decide)
      (by intro ew hew
          simp only [RTInput.edge_weight, Option.some.injEq] at hew
          subst hew
          decide)).2.2.2⟩

theorem matColumns_pair (a b : List Int) :
    matColumns [a, b] = (List.range a.length).map fun c => [a.getD c 0, b.getD c 0] := by
  simp [matColumns]

/-- Claim C8: with `sort_indices=True` the transform returns the same
`relation_weight` and `target_indices` as with `sort_indices=False`, and its
`relation_indices` columns are a permutation of the unsorted columns with a
non-decreasing first row; in particular the weight rows are not permuted
along with the edge columns. -/
theorem relationTransform_sortIndices_frame {β : Type} (fanouts : List Nat)
    (inp : RTInput β) :
    (RelationTransform.transform fanouts true inp).relation_weight =
      (RelationTransform.transform fanouts false inp).relation_weight ∧
    (RelationTransform.transform fanouts true inp).target_indices =
      (RelationTransform.transform fanouts false inp).target_indices ∧
    (matColumns (RelationTransform.transform fanouts true inp).relation_indices).Perm
      (matColumns (RelationTransform.transform fanouts false inp).relation_indices) ∧
    List.Sorted (· ≤ ·)
      ((RelationTransform.transform fanouts true inp).relation_indices.getD 0 []) := by
  set d := fanouts_dim fanouts with hd
  set gathered := (get_fanouts_indices fanouts).map
    (fun i => (reshapeTranspose d inp.indices).getD i []) with hg
  set r0 := (deinterleave gathered).1.flatten with hr0
  set r1 := (deinterleave gathered).2.flatten with hr1
  set wgt := inp.edge_weight.map
    (fun ew => (ew.map (List.drop 1)).flatten.map fun v => [v]) with hwgt
  set tgt := (reshapeTranspose d inp.indices).headD [] with htgt
  have htransT : RelationTransform.transform fanouts true inp =
      { relation_indices := [(tfArgsort r0).map fun i => r0.getD i 0,
          (tfArgsort r0).map fun i => r1.getD i 0]
        relation_weight := wgt
        target_indices := tgt } := by
    rw [RelationTransform.transform]
    rfl
  have htransF : RelationTransform.transform fanouts false inp =
      { relation_indices := [r0, r1]
        relation_weight := wgt
        target_indices := tgt } := by
    rw [RelationTransform.transform]
    rfl
  rw [htransT, htransF]
  refine ⟨rfl, rfl, ?_, ?_⟩
  · set idx := tfArgsort r0 with hidx
    have hperm : idx.Perm (List.range r0.length) := by
      rw [hidx, tfArgsort]
      exact List.perm_insertionSort _ _
    have hstep1 : matColumns [idx.map fun i => r0.getD i 0, idx.map fun i => r1.getD i 0] =
        (List.range idx.length).map fun c => [r0.getD (idx.getD c 0) 0, r1.getD (idx.getD c 0) 0] := by
      rw [matColumns_pair, List.length_map]
      refine List.map_congr_left ?_
      intro c hc
      have hc2 := List.mem_range.mp hc
      rw [getD_map_of_lt _ idx hc2 0 0, getD_map_of_lt _ idx hc2 0 0]
    have hstep2 : ((List.range idx.length).map fun c =>
        [r0.getD (idx.getD c 0) 0, r1.getD (idx.getD c 0) 0]) =
        idx.map fun i => [r0.getD i 0, r1.getD i 0] :=
      range_map_getD idx (fun i => [r0.getD i 0, r1.getD i 0]) 0
    rw [hstep1, hstep2, matColumns_pair]
    exact hperm.map fun i => [r0.getD i 0, r1.getD i 0]
  · show List.Sorted (· ≤ ·) ((tfArgsort r0).map fun i => r0.getD i 0)
    haveI ht : IsTotal Nat (fun i j => r0.getD i 0 ≤ r0.getD j 0) :=
      ⟨fun a b => le_total _ _⟩
    haveI htr : IsTrans Nat (fun i j => r0.getD i 0 ≤ r0.getD j 0) :=
      ⟨fun a b c hab hbc => le_trans hab hbc⟩
    have hs := List.sorted_insertionSort (fun i j => r0.getD i 0 ≤ r0.getD j 0)
      (List.range r0.length)
    rw [tfArgsort]
    exact List.pairwise_map.mpr hs

/-! ### Claim theorems for the negative-sampling transforms -/

/-- Claim C6: `RandomWalkNegTransform.__init__` raises `ValueError` exactly
when both `walk_length` and `metapath` are `None`, and when only
`walk_length` is given, the stored metapath is `edge_types` repeated
`walk_length` times — an ordered sequence of edge-type lists of length
`walk_length`. -/
theorem randomWalkNeg_init_metapath (vt et : List Int) (nn cs rep : Nat)
    (wp wq : ℚ) (wl : Option Nat) (mp : Option (List (List Int))) :
    ((∃ e, RandomWalkNegTransform.init vt et nn cs rep wp wq wl mp = .error e) ↔
      wl = none ∧ mp = none) ∧
    (∀ L, wl = some L → mp = none →
      ∃ cfg, RandomWalkNegTransform.init vt et nn cs rep wp wq wl mp = .ok cfg ∧
        cfg.metapath = List.replicate L et ∧ cfg.metapath.length = L) := by
  constructor
  · constructor
    · rintro ⟨e, he⟩
      cases wl <;> cases mp <;> simp_all [RandomWalkNegTransform.init]
    · rintro ⟨rfl, rfl⟩
      exact ⟨_, rfl⟩
  · rintro L rfl rfl
    exact ⟨_, rfl, rfl, by simp⟩

/-- Witness for C6: `walk_length = 3`, `metapath = None`, edge types `[0]`. -/
theorem randomWalkNeg_init_metapath_witness :
    ∃ cfg, RandomWalkNegTransform.init [0] [0] 3 2 1 1 1 (some 3) none = .ok cfg ∧
      cfg.metapath = List.replicate 3 [0] ∧ cfg.metapath.length = 3 :=
  (randomWalkNeg_init_metapath [0] [0] 3 2 1 1 1 (some 3) none).2 3 rfl rfl

/-- Claim C7: when the opaque sampler signals failure, the transforms raise
`ValueError` and produce no output dict: `RandomWalkNegTransform.transform`
when `sample_pairs_by_random_walk` returns `None`, and
`NeighborNegTransform.transform` when `sample_neighbors` returns an empty
list. -/
theorem negTransforms_raise_on_sampler_failure
    (cfgR : RWNConfig) (cfgN : NNConfig)
    (samplePairs : List Int → List (List Int) → Nat → Nat → ℚ → ℚ → Option (List (List Int)))
    (sampleNeighbors : List Int → List Int → Nat → Bool → List (List Int))
    (sampleVertices : List Int → Nat → List (List Int))
    (inputs : List Int) :
    (samplePairs inputs cfgR.metapath cfgR.repetition cfgR.context_size
        cfgR.walk_p cfgR.walk_q = none →
      RandomWalkNegTransform.transform cfgR samplePairs sampleVertices inputs =
        .error "ValueError: Error sample pair random walk, see logs for details") ∧
    (sampleNeighbors inputs cfgN.edge_types 1 false = [] →
      NeighborNegTransform.transform cfgN sampleNeighbors sampleVertices inputs =
        .error "ValueError: Error sample neighbors, see logs for details") := by
  constructor
  · intro h
    simp [RandomWalkNegTransform.transform, h]
  · intro h
    simp [NeighborNegTransform.transform, h]

/-- Witness for C7: always-failing samplers on a concrete input. -/
theorem negTransforms_raise_on_sampler_failure_witness :
    RandomWalkNegTransform.transform
        ⟨[0], [0], 3, 2, 1, 1, 1, some 3, [[0]]⟩
        (fun _ _ _ _ _ _ => none) (fun _ _ => [[]]) [1, 2] =
      .error "ValueError: Error sample pair random walk, see logs for details" ∧
    NeighborNegTransform.transform ⟨[0], [0], 3⟩
        (fun _ _ _ _ => []) (fun _ _ => [[]]) [1, 2] =
      .error "ValueError: Error sample neighbors, see logs for details" :=
  ⟨(negTransforms_raise_on_sampler_failure ⟨[0], [0], 3, 2, 1, 1, 1, some 3, [[0]]⟩
      ⟨[0], [0], 3⟩ (fun _ _ _ _ _ _ => none) (fun _ _ _ _ => [])
      (fun _ _ => [[]]) [1, 2]).1 rfl,
   (negTransforms_raise_on_sampler_failure ⟨[0], [0], 3, 2, 1, 1, 1, some 3, [[0]]⟩
      ⟨[0], [0], 3⟩ (fun _ _ _ _ _ _ => none) (fun _ _ _ _ => [])
      (fun _ _ => [[]]) [1, 2]).2 rfl⟩

/-- Claim C4: when `sample_pairs_by_random_walk` returns a `[P, 2]` pair
tensor, `RandomWalkNegTransform.transform` returns the dict with exactly the
keys `target`, `context`, `negative`, where `target` is column 0 of the pair
tensor (shape `[P, 1]`), `context` is column 1 (shape `[P, 1]`), and
`negative` is the `P * negative_num` sampled vertices reshaped to
`[P, negative_num]`. -/
theorem randomWalkNeg_transform_output (cfg : RWNConfig)
    (samplePairs : List Int → List (List Int) → Nat → Nat → ℚ → ℚ → Option (List (List Int)))
    (sampleVertices : List Int → Nat → List (List Int))
    (inputs : List Int) (pair : List (List Int)) (flat : List Int)
    (hp : samplePairs inputs cfg.metapath cfg.repetition cfg.context_size
      cfg.walk_p cfg.walk_q = some pair)
    (h2 : ∀ r ∈ pair, r.length = 2)
    (hv : sampleVertices cfg.vertex_type (cfg.negative_num * pair.length) = [flat])
    (_hflen : flat.length = pair.length * cfg.negative_num) :
    RandomWalkNegTransform.transform cfg samplePairs sampleVertices inputs =
      .ok { target := tensorColumn 0 pair, context := tensorColumn 1 pair,
            negative := reshapeRows pair.length cfg.negative_num flat } ∧
    (tensorColumn 0 pair).length = pair.length ∧
    (∀ r ∈ tensorColumn 0 pair, r.length = 1) ∧
    (tensorColumn 1 pair).length = pair.length ∧
    (∀ r ∈ tensorColumn 1 pair, r.length = 1) ∧
    (reshapeRows pair.length cfg.negative_num flat).length = pair.length ∧
    (∀ r ∈ reshapeRows pair.length cfg.negative_num flat,
      r.length = cfg.negative_num) := by
  have htake : ∀ r ∈ pair, List.take 1 r = [r.getD 0 0] := by
    intro r hr
    obtain ⟨a, b, rfl⟩ := List.length_eq_two.mp (h2 r hr)
    rfl
  have hdrop : ∀ r ∈ pair, (r.drop 1).take 1 = [r.getD 1 0] := by
    intro r hr
    obtain ⟨a, b, rfl⟩ := List.length_eq_two.mp (h2 r hr)
    rfl
  refine ⟨?_, ?_, ?_, ?_, ?_, ?_, ?_⟩
  · simp only [RandomWalkNegTransform.transform, hp, hv]
    refine congrArg Except.ok ?_
    refine congrArg₂ (fun t c => NegOutput.mk t c _) ?_ ?_
    · exact List.map_congr_left htake
    · exact List.map_congr_left hdrop
  · simp [tensorColumn]
  · intro r hr
    obtain ⟨r0, _, rfl⟩ := List.mem_map.mp hr
    rfl
  · simp [tensorColumn]
  · intro r hr
    obtain ⟨r0, _, rfl⟩ := List.mem_map.mp hr
    rfl
  · simp [reshapeRows]
  · intro r hr
    obtain ⟨i, _, rfl⟩ := List.mem_map.mp hr
    simp

/-- Witness for C4: `P = 2`, `negative_num = 3`. -/
theorem randomWalkNeg_transform_output_witness :
    RandomWalkNegTransform.transform ⟨[0], [0], 3, 2, 1, 1, 1, some 3, [[0]]⟩
        (fun _ _ _ _ _ _ => some [[1, 2], [3, 4]])
        (fun _ _ => [[5, 6, 7, 8, 9, 10]]) [1, 2] =
      .ok { target := tensorColumn 0 [[1, 2], [3, 4]]
            context := tensorColumn 1 [[1, 2], [3, 4]]
            negative := reshapeRows 2 3 [5, 6, 7, 8, 9, 10] } ∧
    (reshapeRows 2 3 [5, 6, 7, 8, 9, 10]).length = 2 :=
  ⟨(randomWalkNeg_transform_output ⟨[0], [0], 3, 2, 1, 1, 1, some 3, [[0]]⟩
      (fun _ _ _ _ _ _ => some [[1, 2], [3, 4]])
      (fun _ _ => [[5, 6, 7, 8, 9, 10]]) [1, 2] [[1, 2], [3, 4]]
      [5, 6, 7, 8, 9, 10] rfl (by decide) rfl (by decide)).1,
   (randomWalkNeg_transform_output ⟨[0], [0], 3, 2, 1, 1, 1, some 3, [[0]]⟩
      (fun _ _ _ _ _ _ => some [[1, 2], [3, 4]])
      (fun _ _ => [[5, 6, 7, 8, 9, 10]]) [1, 2] [[1, 2], [3, 4]]
      [5, 6, 7, 8, 9, 10] rfl (by decide) rfl (by decide)).2.2.2.2.2.1⟩

/-! ### Claim theorems for `MultiHopFeatureTransform.__init__` -/

theorem checkSparseDims_ok (sn : List String) (sd : Option PyDims)
    (r : Option PyDims) (h : checkSparseDims (some sn) sd = .ok r) :
    r = some (.list (expandFeatureDims sn (sd.getD (.int 1)))) ∧
    ∀ x ∈ expandFeatureDims sn (sd.getD (.int 1)), x = 1 := by
  simp only [checkSparseDims] at h
  split at h
  · cases h
  · split at h
    · refine ⟨(Except.ok.injEq _ _ ▸ h).symm, ?_⟩
      intro x hx
      by_contra hx1
      rename_i hany _
      exact hany (List.any_eq_true.mpr ⟨x, hx, by simpa using hx1⟩)
    · cases h

theorem checkDenseDims_ok (dn : List String) (d : PyDims) (r : Option PyDims)
    (h : checkDenseDims (some dn) (some d) = .ok r) :
    r = some (.list (expandFeatureDims dn d)) := by
  simp only [checkDenseDims] at h
  split at h
  · cases h
  · split at h
    · exact (Except.ok.injEq _ _ ▸ h).symm
    · cases h

/-- Claim C10: `MultiHopFeatureTransform.__init__` raises `ValueError` when
both feature-name arguments are `None` and when any (expanded) sparse dim
differs from `1`; an int dims argument is expanded to a list repeating the
int once per feature name, and the sparse dims default to `1` when
omitted. -/
theorem multiHopFeature_init_checks :
    (∀ (mp : List (List Int)) (f : List Nat) (ew : Bool) (dd sd : Option PyDims),
      MultiHopFeatureTransform.init mp f ew none dd none sd =
        .error "ValueError: one of dense or sparse feature names must be specified") ∧
    (∀ (mp : List (List Int)) (f : List Nat) (ew : Bool) (dd : Option PyDims)
        (sn : List String) (sd : Option PyDims),
      (expandFeatureDims sn (sd.getD (.int 1))).any (· ≠ 1) = true →
      MultiHopFeatureTransform.init mp f ew none dd (some sn) sd =
        .error "ValueError: Only support one dim sparse feature") ∧
    (∀ (mp : List (List Int)) (f : List Nat) (ew : Bool)
        (dn : Option (List String)) (dd : Option PyDims)
        (sn : List String) (sd : Option PyDims) (cfg : MHFConfig),
      MultiHopFeatureTransform.init mp f ew dn dd (some sn) sd = .ok cfg →
      cfg.sparse_feature_dims =
        some (.list (expandFeatureDims sn (sd.getD (.int 1)))) ∧
      ∀ x ∈ expandFeatureDims sn (sd.getD (.int 1)), x = 1) ∧
    (∀ (mp : List (List Int)) (f : List Nat) (ew : Bool) (dn : List String)
        (n : Int) (sn : Option (List String)) (sd : Option PyDims) (cfg : MHFConfig),
      MultiHopFeatureTransform.init mp f ew (some dn) (some (.int n)) sn sd = .ok cfg →
      cfg.dense_feature_dims = some (.list (List.replicate dn.length n))) ∧
    (∀ (sn : List String) (k : Int),
      expandFeatureDims sn ((some (PyDims.int k) : Option PyDims).getD (.int 1)) =
        List.replicate sn.length k ∧
      expandFeatureDims sn ((none : Option PyDims).getD (.int 1)) =
        List.replicate sn.length 1) := by
  refine ⟨?_, ?_, ?_, ?_, ?_⟩
  · intro mp f ew dd sd
    simp [MultiHopFeatureTransform.init]
  · intro mp f ew dd sn sd h
    simp only [MultiHopFeatureTransform.init]
    rw [if_neg (by simp)]
    simp only [checkDenseDims, checkSparseDims, h, if_true]
  · intro mp f ew dn dd sn sd cfg h
    simp only [MultiHopFeatureTransform.init] at h
    split at h
    · cases h
    · rcases hD : checkDenseDims dn dd with e | dd2 <;> rw [hD] at h
      · cases h
      · rcases hS : checkSparseDims (some sn) sd with e | sd2 <;> rw [hS] at h
        · cases h
        · cases h
          obtain ⟨h1, h2⟩ := checkSparseDims_ok sn sd sd2 hS
          exact ⟨h1 ▸ rfl, h2⟩
  · intro mp f ew dn n sn sd cfg h
    simp only [MultiHopFeatureTransform.init] at h
    split at h
    · cases h
    · rcases hD : checkDenseDims (some dn) (some (PyDims.int n)) with e | dd2 <;>
        rw [hD] at h
      · cases h
      · rcases hS : checkSparseDims sn sd with e | sd2 <;> rw [hS] at h
        · cases h
        · cases h
          have h1 := checkDenseDims_ok dn (.int n) dd2 hD
          exact h1 ▸ rfl
  · intro sn k
    exact ⟨rfl, rfl⟩

/-- Witness for C10: a sparse dims entry of `5` is rejected. -/
theorem multiHopFeature_init_checks_witness :
    MultiHopFeatureTransform.init [] [] false none none (some ["f"])
        (some (.int 5)) =
      .error "ValueError: Only support one dim sparse feature" :=
  multiHopFeature_init_checks.2.1 [] [] false none ["f"] (some (.int 5)) (by decide)

/-! ### `tf.unique` correctness and claim C3 -/

theorem indexOfFirst_some (u : List Int) (x : Int) :
    ∀ i, indexOfFirst u x = some i → i < u.length ∧ u.getD i 0 = x := by
  induction u with
  | nil => intro i h; cases h
  | cons y ys ih =>
    intro i h
    simp only [indexOfFirst] at h
    split at h
    · rename_i hyx
      cases h
      exact ⟨by simp, by simpa using hyx⟩
    · cases ho : indexOfFirst ys x with
      | none => rw [ho] at h; cases h
      | some j =>
        rw [ho] at h
        simp at h
        subst h
        obtain ⟨hj, hv⟩ := ih j ho
        refine ⟨by simpa using hj, ?_⟩
        simpa [List.getD_cons_succ] using hv

theorem tfUniqueStep_inv (processed : List Int) (u : List Int) (inv : List Nat) (x : Int)
    (hlen : inv.length = processed.length)
    (hbound : ∀ i ∈ inv, i < u.length)
    (hval : ∀ k, k < processed.length →
      u.getD (inv.getD k 0) 0 = processed.getD k 0) :
    (tfUniqueStep (u, inv) x).2.length = (processed ++ [x]).length ∧
    (∀ i ∈ (tfUniqueStep (u, inv) x).2, i < (tfUniqueStep (u, inv) x).1.length) ∧
    (∀ k, k < (processed ++ [x]).length →
      (tfUniqueStep (u, inv) x).1.getD ((tfUniqueStep (u, inv) x).2.getD k 0) 0 =
        (processed ++ [x]).getD k 0) := by
  cases hf : indexOfFirst u x with
  | some i =>
    obtain ⟨hi, hvi⟩ := indexOfFirst_some u x i hf
    have hstep : tfUniqueStep (u, inv) x = (u, inv ++ [i]) := by
      simp [tfUniqueStep, hf]
    rw [hstep]
    refine ⟨by simp [hlen], ?_, ?_⟩
    · intro i2 hi2
      rcases List.mem_append.mp hi2 with h | h
      · exact hbound i2 h
      · simp only [List.mem_singleton] at h
        exact h ▸ hi
    · intro k hk
      simp only [List.length_append, List.length_cons, List.length_nil] at hk
      rcases Nat.lt_or_ge k processed.length with hk2 | hk2
      · rw [List.getD_append inv [i] 0 k (by omega),
          List.getD_append processed [x] 0 k (by omega)]
        exact hval k hk2
      · have hkp : k = processed.length := by omega
        subst hkp
        rw [List.getD_append_right inv [i] 0 _ (by omega),
          List.getD_append_right processed [x] 0 _ le_rfl]
        have h0 : processed.length - inv.length = 0 := by omega
        rw [h0]
        simpa using hvi
  | none =>
    have hstep : tfUniqueStep (u, inv) x = (u ++ [x], inv ++ [u.length]) := by
      simp [tfUniqueStep, hf]
    rw [hstep]
    refine ⟨by simp [hlen], ?_, ?_⟩
    · intro i2 hi2
      rcases List.mem_append.mp hi2 with h | h
      · have := hbound i2 h
        simp only [List.length_append, List.length_cons, List.length_nil]
        omega
      · simp only [List.mem_singleton] at h
        subst h
        simp
    · intro k hk
      simp only [List.length_append, List.length_cons, List.length_nil] at hk
      rcases Nat.lt_or_ge k processed.length with hk2 | hk2
      · have hkinv : k < inv.length := by omega
        rw [List.getD_append inv [u.length] 0 k hkinv,
          List.getD_append processed [x] 0 k (by omega)]
        have hmem : inv.getD k 0 ∈ inv := by
          rw [List.getD_eq_getElem _ _ hkinv]
          exact List.getElem_mem hkinv
        rw [List.getD_append u [x] 0 _ (hbound _ hmem)]
        exact hval k hk2
      · have hkp : k = processed.length := by omega
        subst hkp
        rw [List.getD_append_right inv [u.length] 0 _ (by omega),
          List.getD_append_right processed [x] 0 _ le_rfl]
        have h0 : processed.length - inv.length = 0 := by omega
        rw [h0]
        simp only [List.getD_cons_zero]
        rw [List.getD_append_right u [x] 0 _ le_rfl]
        simp

theorem tfUnique_foldl_inv (xs : List Int) :
    ∀ (processed : List Int) (acc : List Int × List Nat),
      acc.2.length = processed.length →
      (∀ i ∈ acc.2, i < acc.1.length) →
      (∀ k, k < processed.length →
        acc.1.getD (acc.2.getD k 0) 0 = processed.getD k 0) →
      (xs.foldl tfUniqueStep acc).2.length = (processed ++ xs).length ∧
      (∀ i ∈ (xs.foldl tfUniqueStep acc).2,
        i < (xs.foldl tfUniqueStep acc).1.length) ∧
      (∀ k, k < (processed ++ xs).length →
        (xs.foldl tfUniqueStep acc).1.getD
          ((xs.foldl tfUniqueStep acc).2.getD k 0) 0 = (processed ++ xs).getD k 0) := by
  induction xs with
  | nil =>
    intro processed acc h1 h2 h3
    simp only [List.foldl_nil, List.append_nil]
    exact ⟨h1, h2, h3⟩
  | cons x xs ih =>
    intro processed acc h1 h2 h3
    obtain ⟨s1, s2, s3⟩ := tfUniqueStep_inv processed acc.1 acc.2 x h1 h2 h3
    have := ih (processed ++ [x]) (tfUniqueStep acc x) s1 s2 s3
    simpa [List.append_assoc] using this

theorem tfUnique_spec (xs : List Int) :
    (tfUnique xs).2.length = xs.length ∧
    (∀ i ∈ (tfUnique xs).2, i < (tfUnique xs).1.length) ∧
    (∀ k, k < xs.length →
      (tfUnique xs).1.getD ((tfUnique xs).2.getD k 0) 0 = xs.getD k 0) := by
  have := tfUnique_foldl_inv xs [] ([], []) rfl (by simp) (by simp)
  simpa [tfUnique] using this

theorem list_ext_getD {α : Type} (l1 l2 : List α) (d : α) (h : l1.length = l2.length)
    (hp : ∀ k, k < l2.length → l1.getD k d = l2.getD k d) : l1 = l2 := by
  apply List.ext_getElem h
  intro i h1 h2
  have := hp i h2
  rwa [List.getD_eq_getElem _ _ h1, List.getD_eq_getElem _ _ h2] at this

theorem reshapeRows_getD {α : Type} [Inhabited α] (rows cols : Nat) (flat : List α)
    {i : Nat} (h : i < rows) :
    (reshapeRows rows cols flat).getD i [] =
      (List.range cols).map fun j => flat.getD (i * cols + j) default := by
  rw [List.getD_eq_getElem _ _ (by simpa [reshapeRows] using h)]
  simp [reshapeRows]

theorem getD_range_map {α : Type} (W : Nat) (g : Nat → α) {j : Nat} (hj : j < W)
    (d : α) : ((List.range W).map g).getD j d = g j := by
  rw [List.getD_eq_getElem _ _ (by simpa using hj)]
  simp

theorem flatten_getD_rect (L : List (List Int)) (W : Nat)
    (hW : ∀ row ∈ L, row.length = W) :
    ∀ i j : Nat, i < L.length → j < W →
      L.flatten.getD (i * W + j) 0 = (L.getD i []).getD j 0 := by
  induction L with
  | nil => intro i j hi _; simp at hi
  | cons r L ih =>
    intro i j hi hj
    have hr : r.length = W := hW r (by simp)
    cases i with
    | zero =>
      simp only [List.flatten_cons, Nat.zero_mul, Nat.zero_add]
      rw [List.getD_append _ _ _ _ (by omega), List.getD_cons_zero]
    | succ i2 =>
      have harith : (i2 + 1) * W + j = W + (i2 * W + j) := by ring
      simp only [List.flatten_cons, harith]
      rw [List.getD_append_right _ _ _ _ (by omega), List.getD_cons_succ]
      have : W + (i2 * W + j) - r.length = i2 * W + j := by omega
      rw [this]
      exact ih (fun row hrow => hW row (by simp [hrow])) i2 j
        (by simpa using hi) hj

/-- Claim C3: assuming the opaque `get_pod_feature` is element-wise (each
vertex id is mapped to its concatenated dense feature row `φ id` of width
`D = sum(dense_feature_dims)`), the dense output of
`MultiHopFeatureTransform.transform` has shape `shape(ids) ++ [D]` and its
`[i, j]` slice is `φ (ids[i][j])`; moreover deduplicating the flattened ids
with `tf.unique`, fetching features for the unique vertices and gathering
back with the inverse indices equals fetching directly for every entry of
the flattened table. -/
theorem multiHopFeature_dense_features (cfg : MHFConfig)
    (sampleMultiHop : List Int → List (List Int) × List (List Int))
    (rawFeat : List String → List Int → List (List Int))
    (inputs : List Int) (dn : List String) (φ : Int → List Int) (D : Nat)
    (hdn : cfg.dense_feature_names = some dn)
    (helem : ∀ vs : List Int, rawFeat dn vs = vs.map φ)
    (hφ : ∀ v : Int, (φ v).length = D)
    (hrect : ∀ row ∈ (sampleMultiHop inputs).1,
      row.length = ((sampleMultiHop inputs).1.headD []).length) :
    ∃ dense,
      (MultiHopFeatureTransform.transform cfg sampleMultiHop rawFeat inputs).dense
        = some dense ∧
      dense.length = (sampleMultiHop inputs).1.length ∧
      (∀ i j : Nat, i < (sampleMultiHop inputs).1.length →
        j < ((sampleMultiHop inputs).1.headD []).length →
        (dense.getD i []).length = ((sampleMultiHop inputs).1.headD []).length ∧
        (dense.getD i []).getD j [] =
          φ (((sampleMultiHop inputs).1.getD i []).getD j 0) ∧
        ((dense.getD i []).getD j []).length = D) ∧
      ((tfUnique (sampleMultiHop inputs).1.flatten).2.map fun k =>
          (rawFeat dn (tfUnique (sampleMultiHop inputs).1.flatten).1).getD k []) =
        (sampleMultiHop inputs).1.flatten.map φ := by
  obtain ⟨hu1, hu2, hu3⟩ := tfUnique_spec (sampleMultiHop inputs).1.flatten
  have hgath : ((tfUnique (sampleMultiHop inputs).1.flatten).2.map fun k =>
      (rawFeat dn (tfUnique (sampleMultiHop inputs).1.flatten).1).getD k []) =
      (sampleMultiHop inputs).1.flatten.map φ := by
    apply list_ext_getD _ _ []
    · simp only [List.length_map]
      exact hu1
    · intro k hk
      have hk3 : k < (sampleMultiHop inputs).1.flatten.length := by
        simpa only [List.length_map] using hk
      have hkinv : k < (tfUnique (sampleMultiHop inputs).1.flatten).2.length := by
        rw [hu1]; exact hk3
      rw [getD_map_of_lt _ _ hkinv 0 [], getD_map_of_lt φ _ hk3 0 [], helem]
      have hmem : (tfUnique (sampleMultiHop inputs).1.flatten).2.getD k 0 ∈
          (tfUnique (sampleMultiHop inputs).1.flatten).2 := by
        rw [List.getD_eq_getElem _ _ hkinv]
        exact List.getElem_mem hkinv
      rw [getD_map_of_lt φ _ (hu2 _ hmem) 0 []]
      congr 1
      exact hu3 k hk3
  have htd : (MultiHopFeatureTransform.transform cfg sampleMultiHop rawFeat inputs).dense
      = some (reshapeRows (sampleMultiHop inputs).1.length
          ((sampleMultiHop inputs).1.headD []).length
          ((tfUnique (sampleMultiHop inputs).1.flatten).2.map fun k =>
            (rawFeat dn (tfUnique (sampleMultiHop inputs).1.flatten).1).getD k [])) := by
    simp only [MultiHopFeatureTransform.transform, MultiHopFeatureTransform.get_feature, hdn]
  rw [hgath] at htd
  have hflatlen : (sampleMultiHop inputs).1.flatten.length =
      (sampleMultiHop inputs).1.length * ((sampleMultiHop inputs).1.headD []).length :=
    flatten_length_const hrect
  refine ⟨_, htd, by simp [reshapeRows], ?_, hgath⟩
  intro i j hi hj
  rw [reshapeRows_getD _ _ _ hi]
  have hlt : i * ((sampleMultiHop inputs).1.headD []).length + j <
      (sampleMultiHop inputs).1.flatten.length := by
    rw [hflatlen]
    calc i * ((sampleMultiHop inputs).1.headD []).length + j
        < i * ((sampleMultiHop inputs).1.headD []).length +
          ((sampleMultiHop inputs).1.headD []).length := by omega
      _ = (i + 1) * ((sampleMultiHop inputs).1.headD []).length := by ring
      _ ≤ (sampleMultiHop inputs).1.length *
          ((sampleMultiHop inputs).1.headD []).length :=
        Nat.mul_le_mul_right _ (by omega)
  refine ⟨by simp, ?_, ?_⟩
  · rw [getD_range_map _ _ hj]
    rw [getD_map_of_lt φ _ hlt 0 default]
    congr 1
    exact flatten_getD_rect (sampleMultiHop inputs).1 _ hrect i j hi hj
  · rw [getD_range_map _ _ hj, getD_map_of_lt φ _ hlt 0 default]
    exact hφ _

/-- Witness for C3: two batch rows of width two, features `φ v = [v, v+10]`. -/
theorem multiHopFeature_dense_features_witness :
    ((MultiHopFeatureTransform.transform
        ⟨[[0]], [2], false, some ["f"], some (.int 2), none, none⟩
        (fun _ => ([[1, 2], [2, 3]], []))
        (fun _ vs => vs.map fun v => [v, v + 10])
        [1, 2]).dense).isSome = true := by
  obtain ⟨dense, hd, -, -, -⟩ := multiHopFeature_dense_features
    ⟨[[0]], [2], false, some ["f"], some (.int 2), none, none⟩
    (fun _ => ([[1, 2], [2, 3]], []))
    (fun _ vs => vs.map fun v => [v, v + 10])
    [1, 2] ["f"] (fun v => [v, v + 10]) 2 rfl (fun vs => rfl) (fun v => rfl)
    (by decide)
  rw [hd]
  rfl

end Galileo
